import Mathlib

/-!
Shallow embedding of the CollaborativeWhiteboard (UniBoard Lite) client
engine: the `useWhiteboard` hook (drawing state machine, replication log,
presence-based host election, catch-up protocol, cursor throttling) and the
tool constants consumed by the toolbar.

Conventions of the embedding:
* React state (`strokes`, `currentStroke`, `peers`, `activeUsers`,
  `currentUser`) and refs (`lastCursorUpdate`, `hasRequestedState`) become
  fields of a `Client` structure; each callback / broadcast handler becomes
  a pure function `... → Client → Client × List OutMsg`, where the second
  component lists the messages the handler sends on the channel.
* `Date.now()` and the parsed `new Date(online_at).getTime()` values are
  modelled as `Nat` milliseconds.  The JS throttle test
  `now - lastCursorUpdate.current > 50` on numbers agrees with the `Nat`
  truncated-subtraction test `50 < now - last` for every pair of values
  (both are false whenever `now ≤ last`), so it is kept literally.
* `uuidv4()` freshness is modelled by passing the generated id as an
  explicit argument.
* JS `Array.prototype.sort` is stable; the sort in the `req-state` handler
  is modelled by `List.insertionSort` (stable) on the parsed timestamps.
-/

/-- `Point` from src/types: `{x, y}` canvas coordinates. -/
structure Point where
  x : Int
  y : Int
deriving DecidableEq, Repr

/-- `Stroke` from src/types: id, author, tool colour/width, point list. -/
structure Stroke where
  id : String
  userId : String
  color : String
  width : Nat
  points : List Point
deriving DecidableEq, Repr

/-- `UserCursor` from src/types: `{id, x, y, name}`. -/
structure UserCursor where
  id : String
  x : Int
  y : Int
  name : String
deriving DecidableEq, Repr

/-- One flattened presence record `{user_id, online_at, name?}` as read from
`channel.presenceState()`; `online_at` is the parsed timestamp. -/
structure Presence where
  user_id : String
  online_at : Nat
  name : Option String
deriving DecidableEq, Repr

/-- The local `currentUser` value: `{id, name, color, width}`. -/
structure CurrentUser where
  id : String
  name : String
  color : String
  width : Nat
deriving DecidableEq, Repr

/-- `COLORS` from useWhiteboard. -/
structure ColorTable where
  BLACK : String
  RED : String
  BLUE : String
  GREEN : String
  ERASER : String
deriving DecidableEq, Repr

def COLORS : ColorTable :=
  { BLACK := "#000000"
    RED := "#FF0000"
    BLUE := "#0000FF"
    GREEN := "#008000"
    ERASER := "#FFFFFF" }

/-- `WIDTHS` from useWhiteboard. -/
structure WidthTable where
  PEN : Nat
  ERASER : Nat
deriving DecidableEq, Repr

def WIDTHS : WidthTable := { PEN := 4, ERASER := 20 }

/-- The canvas background fill colour (`ctx.fillStyle = '#FFFFFF'` in
Canvas.tsx). -/
def CANVAS_BACKGROUND : String := "#FFFFFF"

/-- The whole per-client state of `useWhiteboard`. -/
structure Client where
  strokes : List Stroke
  currentStroke : Option Stroke
  peers : List UserCursor
  activeUsers : List String
  user : CurrentUser
  lastCursorUpdate : Nat
  hasRequestedState : Bool
deriving DecidableEq, Repr

/-- Messages a client can put on the broadcast channel. -/
inductive OutMsg where
  | cursorMove (c : UserCursor)
  | drawLine (s : Stroke)
  | reqState (requesterId : String)
  | syncState (strokes : List Stroke)
deriving DecidableEq, Repr

/-- `startDrawing(x, y)`: allocate a fresh stroke (uuid passed as `sid`)
holding the single point `{x, y}` and store it in the in-progress slot. -/
def startDrawing (sid : String) (x y : Int) (c : Client) :
    Client × List OutMsg :=
  ({ c with
      currentStroke := some
        { id := sid
          userId := c.user.id
          color := c.user.color
          width := c.user.width
          points := [⟨x, y⟩] } }, [])

/-- The throttled cursor broadcast shared (verbatim) by `draw` and
`moveCursor`: send `cursor-move` only when `now - lastCursorUpdate > 50`. -/
def sendCursorThrottled (now : Nat) (x y : Int) (c : Client) :
    Client × List OutMsg :=
  if 50 < now - c.lastCursorUpdate then
    ({ c with lastCursorUpdate := now },
      [OutMsg.cursorMove ⟨c.user.id, x, y, c.user.name⟩])
  else
    (c, [])

/-- `draw(x, y)`: append `{x, y}` to the in-progress stroke when one exists
(`prev ? {...prev, points: [...]} : null`), then run the cursor throttle. -/
def draw (now : Nat) (x y : Int) (c : Client) : Client × List OutMsg :=
  sendCursorThrottled now x y
    { c with
        currentStroke :=
          c.currentStroke.map fun s => { s with points := s.points ++ [⟨x, y⟩] } }

/-- `moveCursor(x, y)`: just the cursor throttle. -/
def moveCursor (now : Nat) (x y : Int) (c : Client) : Client × List OutMsg :=
  sendCursorThrottled now x y c

/-- `endDrawing()`: if a stroke is in progress, append it to the log,
broadcast it as one `draw-line` message and clear the slot; otherwise do
nothing. -/
def endDrawing (c : Client) : Client × List OutMsg :=
  match c.currentStroke with
  | some s =>
      ({ c with strokes := c.strokes ++ [s], currentStroke := none },
        [OutMsg.drawLine s])
  | none => (c, [])

/-- `draw-line` broadcast handler: `setStrokes(prev => [...prev, payload])`. -/
def recvDrawLine (s : Stroke) (c : Client) : Client × List OutMsg :=
  ({ c with strokes := c.strokes ++ [s] }, [])

/-- `cursor-move` broadcast handler: drop any previous cursor of the same
peer id and append the new one. -/
def recvCursorMove (u : UserCursor) (c : Client) : Client × List OutMsg :=
  ({ c with peers := c.peers.filter (fun p => p.id ≠ u.id) ++ [u] }, [])

/-- `sync-state` broadcast handler: `setStrokes(payload.strokes)` —
unconditional wholesale replacement of the log. -/
def recvSyncState (ss : List Stroke) (c : Client) : Client × List OutMsg :=
  ({ c with strokes := ss }, [])

/-- The ascending-by-`online_at` sort of the flattened presence snapshot
(`allPresences.sort((a, b) => timeA - timeB)`); JS sort is stable, hence
`List.insertionSort`. -/
def sortPresences (ps : List Presence) : List Presence :=
  List.insertionSort (fun a b => a.online_at ≤ b.online_at) ps

/-- Host election as described in the spec (§4.3): sort the presence set
ascending by join time and take the first record's `userId`. -/
def electHost (ps : List Presence) : Option String :=
  (sortPresences ps).head?.map Presence.user_id

/-- `req-state` broadcast handler: ignore own requests; otherwise sort the
current presence snapshot and, exactly when the first sorted record carries
my own id (`allPresences.length > 0 && allPresences[0].user_id === id`),
broadcast `sync-state` with the full local log. -/
def recvReqState (requesterId : String) (ps : List Presence) (c : Client) :
    Client × List OutMsg :=
  if requesterId = c.user.id then (c, [])
  else
    match (sortPresences ps).head? with
    | some p =>
        if p.user_id = c.user.id then (c, [OutMsg.syncState c.strokes])
        else (c, [])
    | none => (c, [])

/-- Display name used for the active-user list: `p.name || 'Anonymous'`
(JS `||` treats the empty string as falsy). -/
def presenceName (p : Presence) : String :=
  match p.name with
  | some n => if n = "" then "Anonymous" else n
  | none => "Anonymous"

/-- `presence`/`sync` handler: refresh `activeUsers`; if the state request
has not yet been sent and the flattened snapshot has more than one member,
broadcast `req-state{requesterId}` and set the flag. -/
def presenceSync (ps : List Presence) (c : Client) : Client × List OutMsg :=
  let c1 := { c with activeUsers := ps.map presenceName }
  if c1.hasRequestedState = false ∧ 1 < ps.length then
    ({ c1 with hasRequestedState := true }, [OutMsg.reqState c1.user.id])
  else
    (c1, [])

/-- `setTool(color, width)`. -/
def setTool (color : String) (width : Nat) (c : Client) :
    Client × List OutMsg :=
  ({ c with user := { c.user with color := color, width := width } }, [])

/-- `setDisplayName(name)`. -/
def setDisplayName (name : String) (c : Client) : Client × List OutMsg :=
  ({ c with user := { c.user with name := name } }, [])

/-- Every event the client reacts to, for reasoning about event sequences. -/
inductive Ev where
  | startD (sid : String) (x y : Int)
  | drawAt (now : Nat) (x y : Int)
  | moveC (now : Nat) (x y : Int)
  | endD
  | rDraw (s : Stroke)
  | rCursor (u : UserCursor)
  | rReq (requesterId : String) (ps : List Presence)
  | rSync (ss : List Stroke)
  | pSync (ps : List Presence)
  | tool (color : String) (width : Nat)
  | rename (name : String)
deriving DecidableEq, Repr

/-- Dispatch one event to the matching handler. -/
def step : Ev → Client → Client × List OutMsg
  | .startD sid x y => startDrawing sid x y
  | .drawAt now x y => draw now x y
  | .moveC now x y => moveCursor now x y
  | .endD => endDrawing
  | .rDraw s => recvDrawLine s
  | .rCursor u => recvCursorMove u
  | .rReq rid ps => recvReqState rid ps
  | .rSync ss => recvSyncState ss
  | .pSync ps => presenceSync ps
  | .tool col w => setTool col w
  | .rename n => setDisplayName n

/-- Run a sequence of events, collecting all sent messages in order. -/
def runEvents : List Ev → Client → Client × List OutMsg
  | [], c => (c, [])
  | e :: es, c =>
      let (c1, m1) := step e c
      let (c2, m2) := runEvents es c1
      (c2, m1 ++ m2)

/-- Is this event the reception of a `sync-state` message? -/
def Ev.isSyncState : Ev → Bool
  | .rSync _ => true
  | _ => false

/-- Is this message a `req-state` request? -/
def OutMsg.isReqState : OutMsg → Bool
  | .reqState _ => true
  | _ => false

/-- Run a sequence of presence-sync notifications (used for the handshake
counting property). -/
def runPresenceSyncs : List (List Presence) → Client → Client × List OutMsg
  | [], c => (c, [])
  | ps :: rest, c =>
      let (c1, m1) := presenceSync ps c
      let (c2, m2) := runPresenceSyncs rest c1
      (c2, m1 ++ m2)

/-- Run `moveCursor` at each listed time in order (pointer-move burst). -/
def runCursorMoves : List Nat → Int → Int → Client → Client × List OutMsg
  | [], _, _, c => (c, [])
  | t :: ts, x, y, c =>
      let (c1, m1) := moveCursor t x y c
      let (c2, m2) := runCursorMoves ts x y c1
      (c2, m1 ++ m2)

/-- Number of `req-state` messages sent over a run of presence-sync
notifications. -/
def reqCount (snaps : List (List Presence)) (c : Client) : Nat :=
  (runPresenceSyncs snaps c).2.countP fun m => m.isReqState

/-- The send count of the cursor throttle alone: the `lastCursorUpdate`
timestamp is carried along and a send happens exactly when
`now - last > 50`. -/
def throttleRun : List Nat → Nat → Nat
  | [], _ => 0
  | t :: ts, last =>
      if 50 < t - last then throttleRun ts t + 1 else throttleRun ts last

instance : IsTotal Presence fun a b => a.online_at ≤ b.online_at :=
  ⟨fun a b => Nat.le_total a.online_at b.online_at⟩

instance : IsTrans Presence fun a b => a.online_at ≤ b.online_at :=
  ⟨fun _ _ _ h h2 => Nat.le_trans h h2⟩

/-- Two presence records sharing one join time (a tie). -/
def presA : Presence := { user_id := "A", online_at := 5, name := none }

def presB : Presence := { user_id := "B", online_at := 5, name := none }

/-- Two presence records with distinct join times. -/
def presC : Presence := { user_id := "C", online_at := 1, name := none }

def presD : Presence := { user_id := "D", online_at := 2, name := none }

/-- The local client's own presence record and one peer's. -/
def presMe : Presence := { user_id := "me", online_at := 0, name := none }

def presYou : Presence := { user_id := "you", online_at := 7, name := none }

/-- A concrete committed stroke used in witness statements. -/
def strokeS1 : Stroke :=
  { id := "s1", userId := "me", color := "#000000", width := 4
    points := [⟨1, 2⟩] }

/-- A convenient fully concrete client for witness statements. -/
def c0 : Client :=
  { strokes := []
    currentStroke := none
    peers := []
    activeUsers := []
    user := { id := "me", name := "Me", color := "#000000", width := 4 }
    lastCursorUpdate := 0
    hasRequestedState := false }

/-! ## Theorems -/

/-- C1: a `req-state` reception broadcasts `sync-state` with the full local
log iff the requester id differs from the client's own id and sorting the
current presence snapshot ascending by join time places the client's own
record first; in every other case nothing is sent. -/
theorem reqState_host_only_response (c : Client) (rid : String)
    (ps : List Presence) :
    ((recvReqState rid ps c).2 = [OutMsg.syncState c.strokes] ↔
      rid ≠ c.user.id ∧ electHost ps = some c.user.id) ∧
    (¬(rid ≠ c.user.id ∧ electHost ps = some c.user.id) →
      (recvReqState rid ps c).2 = []) := by
  by_cases h1 : rid = c.user.id
  · simp [recvReqState, h1]
  · rcases hh : (sortPresences ps).head? with _ | p
    · simp [recvReqState, electHost, h1, hh]
    · by_cases h2 : p.user_id = c.user.id
      · simp [recvReqState, electHost, h1, hh, h2]
      · simp [recvReqState, electHost, h1, hh, h2]

/-- C3: receiving `sync-state` replaces the whole log with the payload's
stroke sequence, whatever the log held before and whether or not this
client ever sent `req-state`; nothing else changes and nothing is sent. -/
theorem syncState_replaces_log (c : Client) (ss : List Stroke) :
    (recvSyncState ss c).1.strokes = ss ∧
    (recvSyncState ss c).1 = { c with strokes := ss } ∧
    (recvSyncState ss c).2 = [] := by
  refine ⟨rfl, rfl, rfl⟩

/-- C6: when a stroke is in progress at pointer-up, `endDrawing` appends it
to the log, broadcasts exactly one `draw-line` message carrying that stroke
(points array complete, never partial), and empties the in-progress slot. -/
theorem endDrawing_commits_stroke (c : Client) (s : Stroke)
    (h : c.currentStroke = some s) :
    endDrawing c =
      ({ c with strokes := c.strokes ++ [s], currentStroke := none },
        [OutMsg.drawLine s]) := by
  simp [endDrawing, h]

theorem endDrawing_commits_stroke_witness :
    endDrawing { c0 with currentStroke := some strokeS1 } =
      ({ c0 with strokes := [strokeS1], currentStroke := none },
        [OutMsg.drawLine strokeS1]) := by
  have h := endDrawing_commits_stroke
    { c0 with currentStroke := some strokeS1 } strokeS1 rfl
  simpa [c0] using h

/-- C9: `startDrawing(x, y)` makes the in-progress slot hold exactly one
fresh stroke `{id := sid, author := self, tool colour/width, points = [(x,y)]}`;
any stroke previously in progress is dropped without being appended to the
log or broadcast (the log and the outgoing messages show no trace of it). -/
theorem startDrawing_fresh_stroke (c : Client) (sid : String) (x y : Int) :
    startDrawing sid x y c =
      ({ c with
          currentStroke := some
            { id := sid
              userId := c.user.id
              color := c.user.color
              width := c.user.width
              points := [⟨x, y⟩] } }, []) := rfl

/-- C10: with no stroke in progress, `endDrawing` is a no-op at the public
interface (log unchanged, no message, slot still empty), and `draw` leaves
both the in-progress slot and the log unchanged. -/
theorem idle_endDrawing_and_draw_frame (c : Client) (now : Nat) (x y : Int)
    (h : c.currentStroke = none) :
    endDrawing c = (c, []) ∧
    (draw now x y c).1.currentStroke = none ∧
    (draw now x y c).1.strokes = c.strokes := by
  refine ⟨by simp [endDrawing, h], ?_, ?_⟩ <;>
    by_cases ht : 50 < now - c.lastCursorUpdate <;>
      simp [draw, sendCursorThrottled, h, ht]

theorem idle_endDrawing_and_draw_frame_witness :
    endDrawing c0 = (c0, []) ∧
    (draw 1000 3 4 c0).1.currentStroke = none ∧
    (draw 1000 3 4 c0).1.strokes = c0.strokes :=
  idle_endDrawing_and_draw_frame c0 1000 3 4 rfl

/-- C8: the eraser tool is the ordinary stroke pipeline with
`COLORS.ERASER = "#FFFFFF"` (the canvas background fill) and
`WIDTHS.ERASER = 20`; committing an eraser stroke appends it, removing no
prior stroke and growing the log length by exactly 1. -/
theorem eraser_is_additive (c : Client) (sid : String) (x y : Int) :
    COLORS.ERASER = CANVAS_BACKGROUND ∧
    COLORS.ERASER = "#FFFFFF" ∧
    WIDTHS.ERASER = 20 ∧
    ∃ s : Stroke,
      (startDrawing sid x y
          (setTool COLORS.ERASER WIDTHS.ERASER c).1).1.currentStroke = some s ∧
      s.color = "#FFFFFF" ∧ s.width = 20 ∧
      (endDrawing (startDrawing sid x y
          (setTool COLORS.ERASER WIDTHS.ERASER c).1).1).1.strokes
        = c.strokes ++ [s] ∧
      (endDrawing (startDrawing sid x y
          (setTool COLORS.ERASER WIDTHS.ERASER c).1).1).1.strokes.length
        = c.strokes.length + 1 := by
  refine ⟨rfl, rfl, rfl,
    ⟨sid, c.user.id, "#FFFFFF", 20, [⟨x, y⟩]⟩, ?_, rfl, rfl, ?_, ?_⟩ <;>
    simp [setTool, startDrawing, endDrawing, COLORS, WIDTHS]

/-- Every event other than a `sync-state` reception leaves the existing log
as a prefix: it can only append strokes at the end. -/
theorem step_strokes_extend (e : Ev) (c : Client) (h : e.isSyncState = false) :
    ∃ t, (step e c).1.strokes = c.strokes ++ t := by
  cases e with
  | startD sid x y => exact ⟨[], by simp [step, startDrawing]⟩
  | drawAt now x y =>
      refine ⟨[], ?_⟩
      simp only [step, draw, sendCursorThrottled]
      split <;> simp
  | moveC now x y =>
      refine ⟨[], ?_⟩
      simp only [step, moveCursor, sendCursorThrottled]
      split <;> simp
  | endD =>
      rcases hs : c.currentStroke with _ | s
      · exact ⟨[], by simp [step, endDrawing, hs]⟩
      · exact ⟨[s], by simp [step, endDrawing, hs]⟩
  | rDraw s => exact ⟨[s], by simp [step, recvDrawLine]⟩
  | rCursor u => exact ⟨[], by simp [step, recvCursorMove]⟩
  | rReq rid ps =>
      refine ⟨[], ?_⟩
      by_cases h1 : rid = c.user.id
      · simp [step, recvReqState, h1]
      · rcases hh : (sortPresences ps).head? with _ | p
        · simp [step, recvReqState, h1, hh]
        · by_cases h2 : p.user_id = c.user.id <;>
            simp [step, recvReqState, h1, hh, h2]
  | rSync ss => simp [Ev.isSyncState] at h
  | pSync ps =>
      refine ⟨[], ?_⟩
      simp only [step, presenceSync]
      split <;> simp
  | tool col w => exact ⟨[], by simp [step, setTool]⟩
  | rename n => exact ⟨[], by simp [step, setDisplayName]⟩

/-- Over a whole `sync-state`-free event sequence, the initial log is a
prefix of the final one. -/
theorem runEvents_strokes_extend (evs : List Ev) (c : Client)
    (h : ∀ e ∈ evs, e.isSyncState = false) :
    ∃ t, (runEvents evs c).1.strokes = c.strokes ++ t := by
  induction evs generalizing c with
  | nil => exact ⟨[], by simp [runEvents]⟩
  | cons e es ih =>
      obtain ⟨t1, h1⟩ := step_strokes_extend e c (h e (List.mem_cons_self e es))
      obtain ⟨t2, h2⟩ :=
        ih (step e c).1 fun e' he' => h e' (List.mem_cons_of_mem e he')
      refine ⟨t1 ++ t2, ?_⟩
      have hrun : (runEvents (e :: es) c).1 = (runEvents es (step e c).1).1 := by
        simp [runEvents]
      rw [hrun, h2, h1, List.append_assoc]

/-- C5: along any sequence of events containing no `sync-state` reception
(in particular any mix of local commits and remote `draw-line` receptions),
the log never shrinks and every stroke keeps its position; only the
`sync-state` handler can rewrite the log wholesale. -/
theorem log_append_only (evs : List Ev) (c : Client)
    (h : ∀ e ∈ evs, e.isSyncState = false) :
    ∃ t, (runEvents evs c).1.strokes = c.strokes ++ t ∧
      c.strokes.length ≤ (runEvents evs c).1.strokes.length ∧
      ∀ i, i < c.strokes.length →
        (runEvents evs c).1.strokes[i]? = c.strokes[i]? := by
  obtain ⟨t, ht⟩ := runEvents_strokes_extend evs c h
  refine ⟨t, ht, by rw [ht]; simp, fun i hi => ?_⟩
  rw [ht]
  exact List.getElem?_append_left hi

theorem log_append_only_witness :
    ∃ t, (runEvents [Ev.rDraw strokeS1, Ev.endD] c0).1.strokes
        = c0.strokes ++ t ∧
      c0.strokes.length
        ≤ (runEvents [Ev.rDraw strokeS1, Ev.endD] c0).1.strokes.length ∧
      ∀ i, i < c0.strokes.length →
        (runEvents [Ev.rDraw strokeS1, Ev.endD] c0).1.strokes[i]?
          = c0.strokes[i]? :=
  log_append_only [Ev.rDraw strokeS1, Ev.endD] c0 (by decide)

/-- Unfolding one presence-sync notification in the request count. -/
theorem reqCount_cons (s : List Presence) (rest : List (List Presence))
    (c : Client) :
    reqCount (s :: rest) c =
      ((presenceSync s c).2.countP fun m => m.isReqState)
        + reqCount rest (presenceSync s c).1 := by
  simp [reqCount, runPresenceSyncs]

/-- A presence-sync seen after the request flag is set sends nothing and
keeps the flag set. -/
theorem presenceSync_of_flag (ps : List Presence) (c : Client)
    (h : c.hasRequestedState = true) :
    presenceSync ps c = ({ c with activeUsers := ps.map presenceName }, []) := by
  simp [presenceSync, h]

/-- Once the flag is set no later notification ever sends `req-state`. -/
theorem reqCount_of_flag (snaps : List (List Presence)) :
    ∀ c : Client, c.hasRequestedState = true → reqCount snaps c = 0 := by
  induction snaps with
  | nil => intro c _; rfl
  | cons s rest ih =>
      intro c h
      rw [reqCount_cons, presenceSync_of_flag s c h]
      simpa using ih { c with activeUsers := s.map presenceName } h

/-- With the flag unset, the run sends exactly one request iff some
notification shows a snapshot with more than one member. -/
theorem reqCount_of_unset (snaps : List (List Presence)) :
    ∀ c : Client, c.hasRequestedState = false →
      reqCount snaps c = if ∃ s ∈ snaps, 1 < s.length then 1 else 0 := by
  induction snaps with
  | nil => intro c _; simp [reqCount, runPresenceSyncs]
  | cons s rest ih =>
      intro c h
      rw [reqCount_cons]
      by_cases hs : 1 < s.length
      · have hps : presenceSync s c =
            ({ { c with activeUsers := s.map presenceName } with
                hasRequestedState := true },
              [OutMsg.reqState c.user.id]) := by
          simp [presenceSync, h, hs]
        rw [hps]
        have h0 := reqCount_of_flag rest
          { { c with activeUsers := s.map presenceName } with
              hasRequestedState := true } rfl
        rw [h0]
        have hex : ∃ u ∈ s :: rest, 1 < u.length :=
          ⟨s, List.mem_cons_self s rest, hs⟩
        rw [if_pos hex]
        simp [OutMsg.isReqState]
      · have hps : presenceSync s c =
            ({ c with activeUsers := s.map presenceName }, []) := by
          simp [presenceSync, h, hs]
        rw [hps]
        have hrec := ih { c with activeUsers := s.map presenceName } h
        rw [hrec]
        have hiff : (∃ u ∈ rest, 1 < u.length) ↔
            (∃ u ∈ s :: rest, 1 < u.length) := by
          simp [List.mem_cons]
          intro hcon
          exact absurd hcon hs
        simp only [if_congr hiff rfl rfl]
        simp

/-- A snapshot holding the client's own record exactly once has more than
one member iff it holds a record of some other user. -/
theorem one_lt_length_iff_other (s : List Presence) (uid : String)
    (h : s.countP (fun p => p.user_id == uid) = 1) :
    1 < s.length ↔ ∃ r ∈ s, r.user_id ≠ uid := by
  have hlen := List.length_eq_countP_add_countP
    (p := fun p => p.user_id == uid) (l := s)
  constructor
  · intro hl
    rw [h] at hlen
    have hpos : 0 < s.countP fun a => ¬(a.user_id == uid) := by omega
    obtain ⟨r, hr, hq⟩ := List.countP_pos_iff.mp hpos
    refine ⟨r, hr, ?_⟩
    simpa using hq
  · rintro ⟨r, hr, hne⟩
    have hpos : 0 < s.countP fun a => ¬(a.user_id == uid) :=
      List.countP_pos_iff.mpr ⟨r, hr, by simpa using hne⟩
    omega

/-- C2: with the request flag initially unset and each snapshot holding the
client's own presence record exactly once, a run of presence-sync
notifications sends exactly one `req-state` when some notification shows a
presence set containing more than just the client itself, and none
otherwise; notifications after the first send cause no further requests. -/
theorem single_handshake_request (snaps : List (List Presence)) (c : Client)
    (h0 : c.hasRequestedState = false)
    (h1 : ∀ s ∈ snaps, s.countP (fun p => p.user_id == c.user.id) = 1) :
    reqCount snaps c =
      if ∃ s ∈ snaps, ∃ r ∈ s, r.user_id ≠ c.user.id then 1 else 0 := by
  rw [reqCount_of_unset snaps c h0]
  have hiff : (∃ s ∈ snaps, 1 < s.length) ↔
      (∃ s ∈ snaps, ∃ r ∈ s, r.user_id ≠ c.user.id) := by
    constructor
    · rintro ⟨s, hs, hl⟩
      exact ⟨s, hs, (one_lt_length_iff_other s c.user.id (h1 s hs)).mp hl⟩
    · rintro ⟨s, hs, hr⟩
      exact ⟨s, hs, (one_lt_length_iff_other s c.user.id (h1 s hs)).mpr hr⟩
  exact if_congr hiff rfl rfl

theorem single_handshake_request_witness :
    reqCount [[presMe, presYou]] c0 = 1 := by
  have h := single_handshake_request [[presMe, presYou]] c0 rfl (by decide)
  rw [h, if_pos (by decide)]

/-- The messages produced by a run of pointer moves are counted exactly by
the throttle recurrence on `lastCursorUpdate`. -/
theorem runCursorMoves_msgs_length (ts : List Nat) (x y : Int) :
    ∀ c : Client,
      (runCursorMoves ts x y c).2.length = throttleRun ts c.lastCursorUpdate := by
  induction ts with
  | nil => intro c; rfl
  | cons t ts ih =>
      intro c
      by_cases hct : 50 < t - c.lastCursorUpdate
      · simp [runCursorMoves, moveCursor, sendCursorThrottled, hct,
          throttleRun, ih, Nat.add_comm]
      · simp [runCursorMoves, moveCursor, sendCursorThrottled, hct,
          throttleRun, ih]

/-- Bounding the throttle count from an arbitrary `last` value when all
event times lie below `M`. -/
theorem throttleRun_le_of_le (ts : List Nat) (M : Nat) :
    ∀ l : Nat, (∀ t ∈ ts, t ≤ M) → throttleRun ts l ≤ (M - l) / 51 + 1 := by
  induction ts with
  | nil => intro l _; simp [throttleRun]
  | cons t ts ih =>
      intro l h
      have htM : t ≤ M := h t (List.mem_cons_self t ts)
      have hh : ∀ u ∈ ts, u ≤ M := fun u hu => h u (List.mem_cons_of_mem t hu)
      by_cases hct : 50 < t - l
      · have h1 := ih t hh
        simp only [throttleRun, if_pos hct]
        omega
      · have h1 := ih l hh
        simp only [throttleRun, if_neg hct]
        omega

/-- Throttle count over a window: all event times within `[a, M]` allow at
most `(M - a) / 51 + 2` sends, whatever the initial `last` value. -/
theorem throttleRun_window (ts : List Nat) (a M : Nat) :
    ∀ l : Nat, (∀ t ∈ ts, a ≤ t ∧ t ≤ M) →
      throttleRun ts l ≤ (M - a) / 51 + 2 := by
  induction ts with
  | nil => intro l _; simp [throttleRun]
  | cons t ts ih =>
      intro l h
      obtain ⟨hat, htM⟩ := h t (List.mem_cons_self t ts)
      have hh : ∀ u ∈ ts, a ≤ u ∧ u ≤ M :=
        fun u hu => h u (List.mem_cons_of_mem t hu)
      by_cases hct : 50 < t - l
      · have h1 := throttleRun_le_of_le ts M t fun u hu => (hh u hu).2
        simp only [throttleRun, if_pos hct]
        omega
      · have h1 := ih l hh
        simp only [throttleRun, if_neg hct]
        omega

/-- C7 (amended): a pointer move broadcasts `cursor-move` iff strictly more
than 50ms have elapsed since the last cursor broadcast (at exactly 50ms the
update is dropped); a dropped update changes nothing and is not queued; and
pointer moves at 10ms intervals over 200ms yield at most 5 messages. -/
theorem cursor_throttle_strict :
    (∀ (c : Client) (now : Nat) (x y : Int),
      (moveCursor now x y c).2 ≠ [] ↔ 50 < now - c.lastCursorUpdate) ∧
    (∀ (c : Client) (now : Nat) (x y : Int),
      ¬ 50 < now - c.lastCursorUpdate → moveCursor now x y c = (c, [])) ∧
    (∀ (c : Client) (t0 : Nat) (x y : Int),
      (runCursorMoves ((List.range 21).map fun k => t0 + 10 * k) x y c).2.length
        ≤ 5) := by
  refine ⟨?_, ?_, ?_⟩
  · intro c now x y
    by_cases hct : 50 < now - c.lastCursorUpdate <;>
      simp [moveCursor, sendCursorThrottled, hct]
  · intro c now x y hct
    simp [moveCursor, sendCursorThrottled, hct]
  · intro c t0 x y
    rw [runCursorMoves_msgs_length]
    have hb := throttleRun_window ((List.range 21).map fun k => t0 + 10 * k)
      t0 (t0 + 200) c.lastCursorUpdate ?_
    · omega
    · intro t ht
      simp only [List.mem_map, List.mem_range] at ht
      obtain ⟨k, hk, rfl⟩ := ht
      omega

/-- The claim that a cursor update is sent whenever at least 50ms have
elapsed fails at exactly 50ms: with the last broadcast at 100 and a pointer
move at 150, 50ms have elapsed yet nothing is sent. -/
theorem cursor_throttle_claim_counterexample :
    50 ≤ 150 - ({ c0 with lastCursorUpdate := 100 } : Client).lastCursorUpdate ∧
    (moveCursor 150 0 0 { c0 with lastCursorUpdate := 100 }).2 = [] :=
  ⟨by norm_num, rfl⟩

/-- The host-election sort permutes the presence snapshot. -/
theorem sortPresences_perm (l : List Presence) : (sortPresences l).Perm l :=
  List.perm_insertionSort _ l

/-- The host-election sort orders records by ascending join time. -/
theorem sortPresences_sorted (l : List Presence) :
    List.Sorted (fun a b : Presence => a.online_at ≤ b.online_at)
      (sortPresences l) :=
  List.sorted_insertionSort _ l

/-- On a non-empty snapshot the elected host is a member whose join time is
minimal. -/
theorem electHost_is_min (l : List Presence) (h : l ≠ []) :
    ∃ m ∈ l, electHost l = some m.user_id ∧
      ∀ x ∈ l, m.online_at ≤ x.online_at := by
  rcases hsl : sortPresences l with _ | ⟨m, rest⟩
  · exfalso
    have hp := sortPresences_perm l
    rw [hsl] at hp
    exact h hp.symm.eq_nil
  · have hp := sortPresences_perm l
    rw [hsl] at hp
    have hm : m ∈ l := hp.subset (List.mem_cons_self m rest)
    have hs := sortPresences_sorted l
    rw [hsl] at hs
    refine ⟨m, hm, by simp [electHost, hsl], fun x hx => ?_⟩
    rcases List.mem_cons.mp (hp.symm.subset hx) with rfl | hxr
    · exact Nat.le_refl _
    · exact List.rel_of_sorted_cons hs x hxr

/-- C4 (amended): on a non-empty presence set whose join timestamps are
pairwise distinct, host election is permutation-invariant and returns the
`userId` of the record with the minimal join time. -/
theorem electHost_perm_min (l₁ l₂ : List Presence)
    (h : l₁ ≠ []) (hp : l₁.Perm l₂)
    (hinj : ∀ a ∈ l₁, ∀ b ∈ l₁, a.online_at = b.online_at → a = b) :
    electHost l₁ = electHost l₂ ∧
    ∃ m ∈ l₁, electHost l₁ = some m.user_id ∧
      ∀ x ∈ l₁, m.online_at ≤ x.online_at := by
  obtain ⟨m₁, hm₁, he₁, hmin₁⟩ := electHost_is_min l₁ h
  have h₂ : l₂ ≠ [] := by
    intro hnil
    rw [hnil] at hp
    exact h hp.eq_nil
  obtain ⟨m₂, hm₂, he₂, hmin₂⟩ := electHost_is_min l₂ h₂
  have hm₂₁ : m₂ ∈ l₁ := hp.symm.subset hm₂
  have hm₁₂ : m₁ ∈ l₂ := hp.subset hm₁
  have heq : m₁ = m₂ :=
    hinj m₁ hm₁ m₂ hm₂₁
      (Nat.le_antisymm (hmin₁ m₂ hm₂₁) (hmin₂ m₁ hm₁₂))
  refine ⟨?_, m₁, hm₁, he₁, hmin₁⟩
  rw [he₁, he₂, heq]

theorem electHost_perm_min_witness :
    electHost [presC, presD] = electHost [presD, presC] ∧
    ∃ m ∈ [presC, presD], electHost [presC, presD] = some m.user_id ∧
      ∀ x ∈ [presC, presD], m.online_at ≤ x.online_at :=
  electHost_perm_min [presC, presD] [presD, presC] (by decide)
    (List.Perm.swap presD presC []) (by decide)

/-- With tied join timestamps the election is not permutation-invariant:
two records joined at the same instant elect different hosts depending on
the input order of the (stable) sort. -/
theorem electHost_tie_counterexample :
    ([presA, presB]).Perm [presB, presA] ∧
    electHost [presA, presB] ≠ electHost [presB, presA] :=
  ⟨List.Perm.swap presB presA [], by decide⟩
